import Mathlib

/-
Verification of the mintlayer-core p2p block-synchronization specification
against the repository sources.

Shallow embedding conventions:
* machine integers are `Nat` with explicit `< 2 ^ 64` bounds where overflow
  matters; a Rust panic is an `Option.none` result;
* block / transaction ids are `Nat`;
* the per-peer sync task (whose implementation is not part of the source
  tree; only its tests under `src/p2p/src/sync/tests/` are) is modelled from
  the specification as a pure step function over an explicit state, with
  the behaviour at the points the tests pin down following the tests.
-/

namespace MintlayerVerify

/-! ## BlockHeight — embedded from `src/common/src/primitives/height.rs` -/

/-- Number of values of a `u64`; a sum overflows iff it is `≥ u64size`. -/
def u64size : Nat := 2 ^ 64

/-- `BlockHeight(u64)` from `height.rs`; the inner `u64` is a `Nat`. -/
structure BlockHeight where
  val : Nat
  deriving DecidableEq

/-- `BlockHeight::inner` from `height.rs`. -/
def BlockHeight.inner (h : BlockHeight) : Nat := h.val

/-- `BlockHeight::checked_add` from `height.rs`: `u64::checked_add` returns
`None` exactly when the mathematical sum does not fit in a `u64`. -/
def BlockHeight.checked_add (h : BlockHeight) (rhs : Nat) : Option BlockHeight :=
  if h.val + rhs < u64size then some ⟨h.val + rhs⟩ else none

/-- `impl Add<u64> for BlockHeight` from `height.rs`:
`checked_add(other).expect(...)`; the panic of `expect` is `none`. -/
def BlockHeight.add (h : BlockHeight) (other : Nat) : Option BlockHeight :=
  if h.val + other < u64size then some ⟨h.val + other⟩ else none

/-- `BlockHeight::increment` from `height.rs`: `self.0 += 1`, embedded with
Rust's checked (program-error-on-overflow) arithmetic semantics, so an
overflowing increment is a panic (`none`) rather than a wrap. -/
def BlockHeight.increment (h : BlockHeight) : Option BlockHeight :=
  if h.val + 1 < u64size then some ⟨h.val + 1⟩ else none

/-! ## PendingTransactions — embedded from
`src/p2p/src/sync/peer_v2/pending_transactions.rs`

The Rust type is `BinaryHeap<Reverse<(Instant, Id<Transaction>)>>`.
A binary heap is a multiset whose `pop` removes a greatest element, which
under `Reverse` is an entry with the least `(due_time, tx_id)` pair; the
multiset is embedded as a `List (Nat × Nat)` of `(due_time, tx_id)` pairs. -/

/-- The `Ord` instance on `(Instant, Id<Transaction>)` pairs: lexicographic
order, due time first. -/
def pairLe (a b : Nat × Nat) : Prop :=
  a.1 < b.1 ∨ (a.1 = b.1 ∧ a.2 ≤ b.2)

instance (a b : Nat × Nat) : Decidable (pairLe a b) := by
  unfold pairLe; infer_instance

/-- A least entry of the heap contents (what `BinaryHeap::peek`/`pop` sees
under `Reverse`); `none` exactly on the empty heap. -/
def minEntry : List (Nat × Nat) → Option (Nat × Nat)
  | [] => none
  | x :: xs =>
    match minEntry xs with
    | none => some x
    | some m => if pairLe x m then some x else some m

/-- `PendingTransactions` from `pending_transactions.rs`. -/
structure PendingTransactions where
  txs : List (Nat × Nat)
  deriving DecidableEq

/-- `PendingTransactions::new`. -/
def PendingTransactions.new : PendingTransactions := ⟨[]⟩

/-- `PendingTransactions::push(tx, due_time)`: `self.txs.push(Reverse((due_time, tx)))`.
The source pushes unconditionally; there is no capacity check. -/
def PendingTransactions.push (s : PendingTransactions) (tx dueTime : Nat) :
    PendingTransactions :=
  ⟨(dueTime, tx) :: s.txs⟩

/-- `PendingTransactions::pop`: `self.txs.pop().map(|item| item.0.1)` —
removes a least `(due_time, tx_id)` entry and returns its transaction id. -/
def PendingTransactions.pop (s : PendingTransactions) :
    Option Nat × PendingTransactions :=
  match minEntry s.txs with
  | none => (none, s)
  | some m => (some m.2, ⟨s.txs.erase m⟩)

/-- `PendingTransactions::due`: the future completes at time `now` iff the
heap is non-empty and its least due time has been reached (`peek` then
`sleep_until`); on the empty heap it is `std::future::pending` and never
completes. -/
def PendingTransactions.dueCompletesAt (s : PendingTransactions) (now : Nat) :
    Bool :=
  match minEntry s.txs with
  | none => false
  | some m => decide (m.1 ≤ now)

/-! ## The per-peer sync task

Modelled from the spec: the sync peer task itself (header pipeline, block
download scheduler, announcement planner, locator and header response —
spec sections 4.1 to 4.4) is not present in the source tree; only its tests
(`src/p2p/src/sync/tests/block_announcement.rs`) are. The model below
follows the spec's words, except where those tests pin down a different
behaviour, which then wins (the tests are repository source):

* a header list whose first header's parent is only in `blocks_in_flight`
  or only in this peer's `pending_headers` is treated as *unconnected*
  (tests `send_headers_connected_to_block_which_is_being_downloaded` and
  `send_headers_connected_to_previously_sent_headers`; the spec's own
  design note chooses this strict interpretation over its rule 5(b)(c));
* announcements are computed from `best_known_block` alone — no record of
  previously announced headers is kept, so unacknowledged headers are
  announced again (test `best_known_block_is_considered`, and scenario S4
  of the spec, against the `known_headers_sent` sentence of section 4.3).

The model is single-peer: `globally_in_flight` coincides with the peer's
`blocks_in_flight`. -/

/-- A block header: its own id and the id of the parent block. -/
structure Header where
  id : Nat
  prev : Nat
  deriving DecidableEq

/-- Modelled from the spec: the protocol-level limits of section 6.1 that
the sync task consults. -/
structure ProtocolConfig where
  msgHeaderCountLimit : Nat
  maxRequestBlocksCount : Nat
  msgMaxLocatorCount : Nat
  maxSingularUnconnectedHeaders : Nat
  deriving DecidableEq

/-- Negotiated protocol version (spec section 3: affects only the policy on
singular unconnected headers). -/
inductive ProtocolVersion where
  | v1
  | v2
  deriving DecidableEq

/-- Modelled from the spec: the per-peer mutable state of section 3.
`blocksToSend` is the queue of blocks the peer has requested from us and
that we have not yet delivered (the spec's announcement-suppression state:
"while we're still streaming to the peer"). -/
structure PeerState where
  blocksInFlight : List Nat
  pendingHeaders : List Header
  singularCount : Nat
  bestKnown : Option Nat
  blocksToSend : List Nat
  deriving DecidableEq

/-- The node-side state the peer task works against: genesis id, the local
best chain (index `i` holds the block of height `i + 1`), and the peer
context. -/
structure NodeState where
  genesisId : Nat
  chain : List Header
  peer : PeerState
  deriving DecidableEq

/-- A freshly connected peer's context. -/
def initPeer : PeerState := ⟨[], [], 0, none, []⟩

/-- Node state at peer connection time. -/
def initState (g : Nat) (chain : List Header) : NodeState := ⟨g, chain, initPeer⟩

/-- Inbound events of the peer task: wire messages from the peer, completion
of one outbound block delivery, and a batch of local new-tip events (the
event loop batches rapid successions into one planner run, spec 4.3). -/
inductive InEvent where
  | recvHeaderList (hs : List Header)
  | recvHeaderListRequest (locator : List Nat)
  | recvBlockListRequest (ids : List Nat)
  | recvBlockResponse (b : Header)
  | deliverBlock
  | newTip (hs : List Header)

/-- Outbound effects: wire messages to the peer and misbehavior reports to
the peer manager. -/
inductive OutEvent where
  | headerListRequest (locator : List Nat)
  | headerList (hs : List Header)
  | blockListRequest (ids : List Nat)
  | blockResponse (b : Nat)
  | misbehaviorDisconnectedHeaders
  | misbehaviorMessageTooLarge
  | misbehaviorUnsolicitedBlock
  deriving DecidableEq

/-- Ids of the blocks the local chainstate has (genesis plus best chain). -/
def csIds (g : Nat) (chain : List Header) : List Nat :=
  g :: chain.map Header.id

/-- Id of the local tip (genesis on the empty chain). -/
def tipId (g : Nat) (chain : List Header) : Nat :=
  match chain.getLast? with
  | some h => h.id
  | none => g

/-- Internal connectivity of a header list (spec 4.1 rule 3):
each header's parent is the preceding header. -/
def chainLinked : List Header → Bool
  | [] => true
  | [_] => true
  | a :: b :: rest => (b.prev == a.id) && chainLinked (b :: rest)

/-- Index of the first occurrence of `b` in a list of ids. -/
def posOf (b : Nat) : List Nat → Option Nat
  | [] => none
  | x :: xs => if x = b then some 0 else (posOf b xs).map (· + 1)

/-- Height of block `b` on the best chain (`some (i + 1)` when `b` is at
chain index `i`; `none` when `b` is not on the chain). -/
def heightOfBlock (chain : List Header) (b : Nat) : Option Nat :=
  (posOf b (chain.map Header.id)).map (· + 1)

/-- Greatest element of a list of naturals, `0` on the empty list. -/
def natListMax : List Nat → Nat
  | [] => 0
  | x :: xs => Nat.max x (natListMax xs)

/-- Last header of `first :: rest`. -/
def lastHeader (first : Header) : List Header → Header
  | [] => first
  | h :: rest => lastHeader h rest

/-- Modelled from the spec: the block download scheduler walk of section
4.2 — walk `pending` in order, drop headers already in chainstate or in
`globally_in_flight`, collect up to `slots` headers whose parent is in
chainstate or in the already-collected prefix `acc`, keep the rest pending.
Returns (collected ids in order, remaining pending headers). -/
def schedWalk (cs gIF : List Nat) : Nat → List Nat → List Header →
    List Nat × List Header
  | _, acc, [] => (acc.reverse, [])
  | slots, acc, h :: rest =>
    if h.id ∈ cs ∨ h.id ∈ gIF then
      schedWalk cs gIF slots acc rest
    else if 0 < slots ∧ (h.prev ∈ cs ∨ h.prev ∈ acc) then
      schedWalk cs gIF (slots - 1) (h.id :: acc) rest
    else
      let r := schedWalk cs gIF slots acc rest
      (r.1, h :: r.2)

/-- Modelled from the spec: locator height sequence (section 4.4) — from
the tip height downward with doubling steps, bounded by
`msg_max_locator_count` (the fuel). -/
def locatorHeights : Nat → Nat → Nat → List Nat
  | 0, _, _ => []
  | fuel + 1, h, step =>
    h :: (if h ≤ step then [] else locatorHeights fuel (h - step) (2 * step))

/-- Modelled from the spec: locator construction (section 4.4) — block ids
at exponentially spaced heights from the tip down, genesis appended. -/
def mkLocator (cfg : ProtocolConfig) (g : Nat) (chain : List Header) :
    List Nat :=
  ((locatorHeights cfg.msgMaxLocatorCount chain.length 1).filterMap
    (fun h => (chain.map Header.id)[h - 1]?)) ++ [g]

/-- Modelled from the spec: height of the anchor for a header response
(section 4.4 step 1) — the greatest height of a locator entry on the local
best chain, `0` (genesis) when none is. -/
def locatorAnchorHeight (chain : List Header) (locator : List Nat) : Nat :=
  natListMax (locator.filterMap (heightOfBlock chain))

/-- Modelled from the spec: the reply to `HeaderListRequest(locator)`
(section 4.4 step 2) — headers strictly above the anchor, forward along the
best chain, at most `msg_header_count_limit` of them. -/
def headerRequestResponse (cfg : ProtocolConfig) (chain : List Header)
    (locator : List Nat) : List Header :=
  (chain.drop (locatorAnchorHeight chain locator)).take cfg.msgHeaderCountLimit

/-- Modelled from the spec: the announcement planner computation of section
4.3 — all best-chain headers strictly above the peer's best known block
(everything from genesis when that is unset or off-chain), bounded in
length. No sent-header history enters the computation. -/
def computeAnnouncement (cfg : ProtocolConfig) (chain : List Header)
    (bestKnown : Option Nat) : List Header :=
  let k := match bestKnown with
    | none => 0
    | some b =>
      match heightOfBlock chain b with
      | some m => m
      | none => 0
  (chain.drop k).take cfg.msgHeaderCountLimit

/-- Modelled from the spec: the header pipeline of section 4.1, with the
connection check of its rule 5 strict as the tests demand: the list is
connected to the local state iff the first header's parent is in the
chainstate — a parent merely in `blocks_in_flight` or in this peer's
`pending_headers` leaves the list unconnected. -/
def handleHeaderList (cfg : ProtocolConfig) (ver : ProtocolVersion)
    (s : NodeState) (hs : List Header) : NodeState × List OutEvent :=
  match hs with
  | [] => (s, [])
  | first :: rest =>
    if cfg.msgHeaderCountLimit < (first :: rest).length then
      (s, [OutEvent.misbehaviorMessageTooLarge])
    else if chainLinked (first :: rest) = false then
      (s, [OutEvent.misbehaviorDisconnectedHeaders])
    else if first.prev ∈ csIds s.genesisId s.chain then
      let inF := s.peer.blocksInFlight
      let r := schedWalk (csIds s.genesisId s.chain) inF
        (cfg.maxRequestBlocksCount - inF.length) [] (first :: rest)
      ({ s with peer := { s.peer with
            singularCount := 0,
            bestKnown := some (lastHeader first rest).id,
            pendingHeaders := r.2,
            blocksInFlight := inF ++ r.1 } },
       if r.1 = [] then [] else [OutEvent.blockListRequest r.1])
    else if rest = [] then
      let c := s.peer.singularCount + 1
      if ver = ProtocolVersion.v2 ∨ cfg.maxSingularUnconnectedHeaders < c then
        ({ s with peer := { s.peer with singularCount := c } },
         [OutEvent.misbehaviorDisconnectedHeaders])
      else
        ({ s with peer := { s.peer with singularCount := c } },
         [OutEvent.headerListRequest (mkLocator cfg s.genesisId s.chain)])
    else
      (s, [OutEvent.misbehaviorDisconnectedHeaders])

/-- Modelled from the spec: serving a `HeaderListRequest` (section 4.4) and
remembering the anchor as a block the peer has (the node in test
`best_known_block_is_considered` remembers the peer's tip from the
locator). -/
def handleHeaderListRequest (cfg : ProtocolConfig) (s : NodeState)
    (locator : List Nat) : NodeState × List OutEvent :=
  let anchor := locatorAnchorHeight s.chain locator
  let bk :=
    if anchor = 0 then s.peer.bestKnown
    else
      match s.chain[anchor - 1]? with
      | some hh => some hh.id
      | none => s.peer.bestKnown
  ({ s with peer := { s.peer with bestKnown := bk } },
   [OutEvent.headerList (headerRequestResponse cfg s.chain locator)])

/-- Modelled from the spec: block response handling (section 4.2) — the id
must have been requested, it leaves both in-flight sets, the block joins
the chainstate when it extends the tip, and freed slots are topped up from
`pending_headers`. -/
def handleBlockResponse (cfg : ProtocolConfig) (s : NodeState) (b : Header) :
    NodeState × List OutEvent :=
  if b.id ∈ s.peer.blocksInFlight then
    let inF := s.peer.blocksInFlight.erase b.id
    let chain2 := if b.prev = tipId s.genesisId s.chain
      then s.chain ++ [b] else s.chain
    let r := schedWalk (csIds s.genesisId chain2) inF
      (cfg.maxRequestBlocksCount - inF.length) [] s.peer.pendingHeaders
    ({ s with
        chain := chain2,
        peer := { s.peer with
          blocksInFlight := inF ++ r.1,
          pendingHeaders := r.2,
          bestKnown := some b.id } },
     if r.1 = [] then [] else [OutEvent.blockListRequest r.1])
  else
    (s, [OutEvent.misbehaviorUnsolicitedBlock])

/-- Appends to the best chain the headers of a new-tip batch that extend
the tip in turn. -/
def extendChain (g : Nat) : List Header → List Header → List Header
  | chain, [] => chain
  | chain, h :: rest =>
    if h.prev = tipId g chain then extendChain g (chain ++ [h]) rest
    else extendChain g chain rest

/-- Modelled from the spec: the announcement planner trigger (section 4.3)
— on a batch of new tips, announce the headers above the peer's best known
block, unless deliveries to the peer are still outstanding, in which case
nothing is emitted now (suppression). -/
def handleNewTip (cfg : ProtocolConfig) (s : NodeState) (hs : List Header) :
    NodeState × List OutEvent :=
  let chain2 := extendChain s.genesisId s.chain hs
  let s2 := { s with chain := chain2 }
  if s.peer.blocksToSend = [] then
    let ann := computeAnnouncement cfg chain2 s.peer.bestKnown
    (s2, if ann = [] then [] else [OutEvent.headerList ann])
  else
    (s2, [])

/-- Modelled from the spec: one dispatcher step of the peer task
(section 4.6), mapping an inbound event to the next state and the emitted
outbound events. -/
def step (cfg : ProtocolConfig) (ver : ProtocolVersion) (s : NodeState) :
    InEvent → NodeState × List OutEvent
  | InEvent.recvHeaderList hs => handleHeaderList cfg ver s hs
  | InEvent.recvHeaderListRequest locator => handleHeaderListRequest cfg s locator
  | InEvent.recvBlockListRequest ids =>
    ({ s with peer := { s.peer with blocksToSend := s.peer.blocksToSend ++ ids } },
     [])
  | InEvent.recvBlockResponse b => handleBlockResponse cfg s b
  | InEvent.deliverBlock =>
    match s.peer.blocksToSend with
    | [] => (s, [])
    | b :: rest =>
      ({ s with peer := { s.peer with blocksToSend := rest, bestKnown := some b } },
       [OutEvent.blockResponse b])
  | InEvent.newTip hs => handleNewTip cfg s hs

/-- Runs the peer task over a list of inbound events. -/
def run (cfg : ProtocolConfig) (ver : ProtocolVersion) :
    NodeState → List InEvent → NodeState
  | s, [] => s
  | s, e :: es => run cfg ver (step cfg ver s e).1 es

/-- The outbound events of event `e` after the task has consumed `es`. -/
def outsAfter (cfg : ProtocolConfig) (ver : ProtocolVersion) (s : NodeState)
    (es : List InEvent) (e : InEvent) : List OutEvent :=
  (step cfg ver (run cfg ver s es) e).2

/-- The first header of the list (when there is one) has its parent among
`ids`. -/
def headAnchored (ids : List Nat) : List Header → Prop
  | [] => True
  | h :: _ => h.prev ∈ ids

instance (ids : List Nat) (l : List Header) : Decidable (headAnchored ids l) := by
  cases l with
  | nil => exact isTrue trivial
  | cons h t => exact (inferInstance : Decidable (h.prev ∈ ids))

/-! ## Helper lemmas -/

theorem pairLe_refl (a : Nat × Nat) : pairLe a a := by
  unfold pairLe; omega

theorem pairLe_total (a b : Nat × Nat) : pairLe a b ∨ pairLe b a := by
  unfold pairLe; omega

theorem pairLe_trans {a b c : Nat × Nat} (h1 : pairLe a b) (h2 : pairLe b c) :
    pairLe a c := by
  unfold pairLe at h1 h2 ⊢; omega

theorem minEntry_eq_none {l : List (Nat × Nat)} : minEntry l = none ↔ l = [] := by
  cases l with
  | nil => simp [minEntry]
  | cons x xs =>
    cases h : minEntry xs with
    | none => simp [minEntry, h]
    | some m =>
      simp only [minEntry, h]
      split <;> simp

theorem minEntry_mem : ∀ {l : List (Nat × Nat)} {m : Nat × Nat},
    minEntry l = some m → m ∈ l := by
  intro l
  induction l with
  | nil => intro m h; simp [minEntry] at h
  | cons x xs ih =>
    intro m h
    cases h2 : minEntry xs with
    | none =>
      simp only [minEntry, h2] at h
      simp [← Option.some.inj h]
    | some m2 =>
      simp only [minEntry, h2] at h
      by_cases hle : pairLe x m2
      · rw [if_pos hle] at h
        simp [← Option.some.inj h]
      · rw [if_neg hle] at h
        have := ih (h2.trans (congrArg some (Option.some.inj h)))
        simp [this]

theorem minEntry_le : ∀ {l : List (Nat × Nat)} {m : Nat × Nat},
    minEntry l = some m → ∀ e ∈ l, pairLe m e := by
  intro l
  induction l with
  | nil => intro m h; simp [minEntry] at h
  | cons x xs ih =>
    intro m h e he
    cases h2 : minEntry xs with
    | none =>
      have hxs : xs = [] := minEntry_eq_none.mp h2
      subst hxs
      simp only [minEntry] at h
      rcases List.mem_singleton.mp he with rfl
      rw [← Option.some.inj h]
      exact pairLe_refl _
    | some m2 =>
      simp only [minEntry, h2] at h
      by_cases hle : pairLe x m2
      · rw [if_pos hle] at h
        rcases Option.some.inj h with rfl
        rcases List.mem_cons.mp he with rfl | hexs
        · exact pairLe_refl _
        · exact pairLe_trans hle (ih h2 e hexs)
      · rw [if_neg hle] at h
        have hm : m2 = m := Option.some.inj h
        rcases List.mem_cons.mp he with h3 | hexs
        · rw [h3, ← hm]
          rcases pairLe_total x m2 with hh | hh
          · exact absurd hh hle
          · exact hh
        · rw [← hm]
          exact ih h2 e hexs

theorem chainLinked_tail {a : Header} {l : List Header}
    (h : chainLinked (a :: l) = true) : chainLinked l = true := by
  cases l with
  | nil => rfl
  | cons b r =>
    simp only [chainLinked, Bool.and_eq_true] at h
    exact h.2

theorem chainLinked_head {a b : Header} {l : List Header}
    (h : chainLinked (a :: b :: l) = true) : b.prev = a.id := by
  simp only [chainLinked, Bool.and_eq_true, beq_iff_eq] at h
  exact h.1

theorem schedWalk_len (cs gIF : List Nat) :
    ∀ (hs : List Header) (slots : Nat) (acc : List Nat),
      (schedWalk cs gIF slots acc hs).1.length ≤ slots + acc.length := by
  intro hs
  induction hs with
  | nil => intro slots acc; simp [schedWalk]
  | cons h rest ih =>
    intro slots acc
    simp only [schedWalk]
    split_ifs with h1 h2
    · exact ih slots acc
    · have h3 := ih (slots - 1) (h.id :: acc)
      simp only [List.length_cons] at h3
      have h4 : 0 < slots := h2.1
      omega
    · exact ih slots acc

theorem schedWalk_zero (cs gIF : List Nat) :
    ∀ (hs : List Header) (acc : List Nat),
      (∀ hh ∈ hs, hh.id ∉ cs ∧ hh.id ∉ gIF) →
      schedWalk cs gIF 0 acc hs = (acc.reverse, hs) := by
  intro hs
  induction hs with
  | nil => intro acc _; simp [schedWalk]
  | cons h rest ih =>
    intro acc hfresh
    have hids := hfresh h (by simp)
    simp only [schedWalk]
    rw [if_neg (by tauto), if_neg (by simp)]
    rw [ih acc (fun hh hm => hfresh hh (by simp [hm]))]

theorem schedWalk_go (cs gIF : List Nat) :
    ∀ (hs : List Header) (slots : Nat) (acc : List Nat),
      chainLinked hs = true →
      headAnchored (cs ++ acc) hs →
      (∀ hh ∈ hs, hh.id ∉ cs ∧ hh.id ∉ gIF) →
      schedWalk cs gIF slots acc hs =
        (acc.reverse ++ (hs.take slots).map Header.id, hs.drop slots) := by
  intro hs
  induction hs with
  | nil => intro slots acc _ _ _; simp [schedWalk]
  | cons h rest ih =>
    intro slots acc hlink hanchor hfresh
    have hids := hfresh h (by simp)
    cases slots with
    | zero =>
      rw [schedWalk_zero cs gIF (h :: rest) acc hfresh]
      simp
    | succ k =>
      simp only [schedWalk]
      rw [if_neg (by tauto)]
      have hanc : h.prev ∈ cs ∨ h.prev ∈ acc := by
        have : h.prev ∈ cs ++ acc := hanchor
        simpa using this
      rw [if_pos ⟨Nat.succ_pos k, hanc⟩]
      have hrest : schedWalk cs gIF (k + 1 - 1) (h.id :: acc) rest =
          ((h.id :: acc).reverse ++ (rest.take k).map Header.id, rest.drop k) := by
        have hanchor2 : headAnchored (cs ++ (h.id :: acc)) rest := by
          cases rest with
          | nil => trivial
          | cons b r =>
            have : b.prev = h.id := chainLinked_head hlink
            show b.prev ∈ cs ++ (h.id :: acc)
            simp [this]
        have := ih k (h.id :: acc) (chainLinked_tail hlink) hanchor2
          (fun hh hm => hfresh hh (by simp [hm]))
        simpa using this
      rw [hrest]
      simp [List.reverse_cons]

theorem posOf_spec {b : Nat} :
    ∀ {l : List Nat} {i : Nat}, posOf b l = some i →
      i < l.length ∧ l[i]? = some b := by
  intro l
  induction l with
  | nil => intro i h; simp [posOf] at h
  | cons x xs ih =>
    intro i h
    simp only [posOf] at h
    by_cases hx : x = b
    · rw [if_pos hx] at h
      rcases Option.some.inj h with rfl
      simp [hx]
    · rw [if_neg hx] at h
      rcases Option.map_eq_some'.mp h with ⟨i2, h2, rfl⟩
      have := ih h2
      constructor
      · simp; omega
      · simpa using this.2

theorem posOf_eq_some_of_first {b : Nat} :
    ∀ {l : List Nat} {k : Nat}, l[k]? = some b →
      (∀ j ∈ List.range k, l[j]? ≠ some b) →
      posOf b l = some k := by
  intro l
  induction l with
  | nil => intro k h _; simp at h
  | cons x xs ih =>
    intro k hk hfirst
    cases k with
    | zero =>
      simp only [List.getElem?_cons_zero] at hk
      simp [posOf, Option.some.inj hk]
    | succ k2 =>
      have hx : ¬(x = b) := by
        intro he
        exact hfirst 0 (List.mem_range.mpr (Nat.succ_pos _)) (by simp [he])
      simp only [posOf]
      rw [if_neg hx]
      have h2 := ih (by simpa using hk) (fun j hj => by
        have := hfirst (j + 1)
          (List.mem_range.mpr (by have := List.mem_range.mp hj; omega))
        simpa using this)
      rw [h2]
      rfl

theorem natListMax_le {m : Nat} :
    ∀ {l : List Nat}, (∀ x ∈ l, x ≤ m) → natListMax l ≤ m := by
  intro l
  induction l with
  | nil => intro _; simp [natListMax]
  | cons x xs ih =>
    intro hb
    have h1 := hb x (by simp)
    have h2 := ih (fun y hy => hb y (by simp [hy]))
    simp only [natListMax]
    exact Nat.max_le.mpr ⟨h1, h2⟩

theorem le_natListMax {m : Nat} :
    ∀ {l : List Nat}, m ∈ l → m ≤ natListMax l := by
  intro l
  induction l with
  | nil => intro h; simp at h
  | cons x xs ih =>
    intro hm
    rcases List.mem_cons.mp hm with rfl | hxs
    · simp only [natListMax]
      exact Nat.le_max_left _ _
    · have := ih hxs
      simp only [natListMax]
      exact le_trans this (Nat.le_max_right _ _)

theorem natListMax_eq {m : Nat} {l : List Nat} (hmem : m ∈ l)
    (hb : ∀ x ∈ l, x ≤ m) : natListMax l = m :=
  Nat.le_antisymm (natListMax_le hb) (le_natListMax hmem)

theorem handleHeaderList_unconnected_multi (cfg : ProtocolConfig)
    (ver : ProtocolVersion) (s : NodeState) (first : Header) (rest : List Header)
    (hlen : (first :: rest).length ≤ cfg.msgHeaderCountLimit)
    (hlink : chainLinked (first :: rest) = true)
    (hprev : first.prev ∉ csIds s.genesisId s.chain)
    (hrest : rest ≠ []) :
    handleHeaderList cfg ver s (first :: rest) =
      (s, [OutEvent.misbehaviorDisconnectedHeaders]) := by
  simp only [handleHeaderList]
  rw [if_neg (by omega), if_neg (by simp [hlink]), if_neg hprev, if_neg hrest]

theorem handleHeaderList_singular (cfg : ProtocolConfig) (ver : ProtocolVersion)
    (s : NodeState) (h : Header)
    (hlim : 1 ≤ cfg.msgHeaderCountLimit)
    (hprev : h.prev ∉ csIds s.genesisId s.chain) :
    handleHeaderList cfg ver s [h] =
      (if ver = ProtocolVersion.v2 ∨
          cfg.maxSingularUnconnectedHeaders < s.peer.singularCount + 1 then
        ({ s with peer := { s.peer with singularCount := s.peer.singularCount + 1 } },
         [OutEvent.misbehaviorDisconnectedHeaders])
      else
        ({ s with peer := { s.peer with singularCount := s.peer.singularCount + 1 } },
         [OutEvent.headerListRequest (mkLocator cfg s.genesisId s.chain)])) := by
  simp only [handleHeaderList]
  rw [if_neg (by simp only [List.length_cons, List.length_nil]; omega),
    if_neg (by simp [chainLinked]), if_neg hprev]
  simp

theorem handleHeaderList_connected (cfg : ProtocolConfig) (ver : ProtocolVersion)
    (s : NodeState) (first : Header) (rest : List Header)
    (hlen : (first :: rest).length ≤ cfg.msgHeaderCountLimit)
    (hlink : chainLinked (first :: rest) = true)
    (hprev : first.prev ∈ csIds s.genesisId s.chain) :
    handleHeaderList cfg ver s (first :: rest) =
      (let r := schedWalk (csIds s.genesisId s.chain) s.peer.blocksInFlight
         (cfg.maxRequestBlocksCount - s.peer.blocksInFlight.length) []
         (first :: rest)
       ({ s with peer := { s.peer with
             singularCount := 0,
             bestKnown := some (lastHeader first rest).id,
             pendingHeaders := r.2,
             blocksInFlight := s.peer.blocksInFlight ++ r.1 } },
        if r.1 = [] then [] else [OutEvent.blockListRequest r.1])) := by
  simp only [handleHeaderList]
  rw [if_neg (by omega), if_neg (by simp [hlink]), if_pos hprev]

theorem append_sched_le {cap : Nat} (cs : List Nat) (inF : List Nat)
    (pend : List Header) (h : inF.length ≤ cap) :
    (inF ++ (schedWalk cs inF (cap - inF.length) [] pend).1).length ≤ cap := by
  have hb := schedWalk_len cs inF pend (cap - inF.length) []
  simp only [List.length_nil, Nat.add_zero] at hb
  simp only [List.length_append]
  omega

theorem step_inFlight_le (cfg : ProtocolConfig) (ver : ProtocolVersion)
    (s : NodeState) (e : InEvent)
    (h : s.peer.blocksInFlight.length ≤ cfg.maxRequestBlocksCount) :
    (step cfg ver s e).1.peer.blocksInFlight.length ≤
      cfg.maxRequestBlocksCount := by
  cases e with
  | recvHeaderList hs =>
    cases hs with
    | nil => exact h
    | cons first rest =>
      simp only [step, handleHeaderList]
      split_ifs <;>
        first
          | exact h
          | exact append_sched_le _ _ _ h
  | recvHeaderListRequest locator => exact h
  | recvBlockListRequest ids => exact h
  | recvBlockResponse b =>
    simp only [step, handleBlockResponse]
    split_ifs <;>
      first
        | exact h
        | exact append_sched_le _ _ _
            (le_trans (List.erase_sublist b.id s.peer.blocksInFlight).length_le h)
  | deliverBlock =>
    simp only [step]
    cases s.peer.blocksToSend with
    | nil => exact h
    | cons b rest => exact h
  | newTip hs =>
    simp only [step, handleNewTip]
    split_ifs <;> exact h

theorem run_inFlight_le (cfg : ProtocolConfig) (ver : ProtocolVersion) :
    ∀ (evs : List InEvent) (s : NodeState),
      s.peer.blocksInFlight.length ≤ cfg.maxRequestBlocksCount →
      (run cfg ver s evs).peer.blocksInFlight.length ≤
        cfg.maxRequestBlocksCount := by
  intro evs
  induction evs with
  | nil => intro s h; simpa [run] using h
  | cons e es ih =>
    intro s h
    simp only [run]
    exact ih _ (step_inFlight_le cfg ver s e h)

/-! ## Claim theorems -/

/-- Claim C10: `BlockHeight.checked_add` returns `some` of the height with
inner value `h.inner + n` exactly when that sum fits in a `u64`, and `none`
otherwise; under the no-overflow precondition `Add` and `increment` produce
the same incremented height and cannot panic, while on overflow `Add` (and
an overflow-checked `increment`) panic and never produce a wrapped value. -/
theorem claim_C10 (h : BlockHeight) (n : Nat) :
    (BlockHeight.checked_add h n = some ⟨h.inner + n⟩ ↔ h.inner + n < u64size) ∧
    (BlockHeight.checked_add h n = none ↔ u64size ≤ h.inner + n) ∧
    (h.inner + n < u64size →
      BlockHeight.add h n = some ⟨h.inner + n⟩ ∧
      BlockHeight.add h n = BlockHeight.checked_add h n) ∧
    (h.inner + 1 < u64size →
      BlockHeight.increment h = BlockHeight.add h 1 ∧
      BlockHeight.increment h = some ⟨h.inner + 1⟩) ∧
    (u64size ≤ h.inner + n →
      BlockHeight.add h n = none ∧ ∀ w, BlockHeight.add h n ≠ some w) := by
  unfold BlockHeight.checked_add BlockHeight.add BlockHeight.increment
    BlockHeight.inner
  by_cases hov : h.val + n < u64size
  · refine ⟨by simp [hov], by simp [hov]; try omega, fun _ => ⟨by simp [hov], rfl⟩,
      fun h1 => ⟨by simp [h1], by simp [h1]⟩, fun hc => absurd hov (by omega)⟩
  · refine ⟨by simp [hov], by simp [hov]; try omega, fun hc => absurd hc hov,
      fun h1 => ⟨by simp [h1], by simp [h1]⟩, fun _ => ⟨by simp [hov], by simp [hov]⟩⟩

/-- Claim C10 witness: the theorem instantiated at height 3 with
increments 4 and 1. -/
theorem claim_C10_witness :
    BlockHeight.checked_add ⟨3⟩ 4 = some ⟨7⟩ ∧
    BlockHeight.increment ⟨3⟩ = some ⟨4⟩ := by
  have hh := claim_C10 ⟨3⟩ 4
  exact ⟨hh.1.mpr (by decide), by rw [(hh.2.2.2.1 (by decide)).2]; decide⟩

/-- Claim C8 counterexample: take a configuration with
`max_peer_tx_announcements = 1`. A queue already holding one entry does not
drop a further pushed entry: `PendingTransactions::push` enqueues it, so
the queue length becomes 2 and the overflow entry is in the queue. -/
theorem claim_C8_counterexample :
    ((PendingTransactions.new.push 1 10).push 2 20).txs.length = 2 ∧
    (20, 2) ∈ ((PendingTransactions.new.push 1 10).push 2 20).txs := by
  decide

/-- Claim C8 (amended): `PendingTransactions::push` enqueues
unconditionally — after a push the queue holds the new `(due_time, tx_id)`
entry and its length has grown by one; no
`max_peer_tx_announcements` cap is enforced by `push` itself. -/
theorem claim_C8 (s : PendingTransactions) (tx dueTime : Nat) :
    (s.push tx dueTime).txs = (dueTime, tx) :: s.txs ∧
    (s.push tx dueTime).txs.length = s.txs.length + 1 :=
  ⟨rfl, by simp [PendingTransactions.push]⟩

/-- Claim C9: `pop` returns `none` exactly on the empty queue and otherwise
removes and returns the transaction id of an entry least in the
`(due_time, tx_id)` order; `due` completes at a time `t` iff the queue is
non-empty and its least due time is at most `t`, and never completes on an
empty queue. -/
theorem claim_C9 (s : PendingTransactions) :
    (s.pop.1 = none ↔ s.txs = []) ∧
    (s.txs ≠ [] → ∃ m, minEntry s.txs = some m) ∧
    (∀ m, minEntry s.txs = some m →
      m ∈ s.txs ∧ (∀ e ∈ s.txs, pairLe m e) ∧
      s.pop = (some m.2, ⟨s.txs.erase m⟩) ∧
      s.pop.2.txs.length + 1 = s.txs.length) ∧
    (∀ t, s.dueCompletesAt t = true ↔
      ∃ m, minEntry s.txs = some m ∧ m.1 ≤ t) ∧
    (s.txs = [] → ∀ t, s.dueCompletesAt t = false) := by
  refine ⟨?_, ?_, ?_, ?_, ?_⟩
  · unfold PendingTransactions.pop
    cases hm : minEntry s.txs with
    | none => simp [minEntry_eq_none.mp hm]
    | some m =>
      simp only
      constructor
      · intro hc; cases hc
      · intro he
        rw [he] at hm
        simp [minEntry] at hm
  · intro hne
    cases hm : minEntry s.txs with
    | none => exact absurd (minEntry_eq_none.mp hm) hne
    | some m => exact ⟨m, rfl⟩
  · intro m hm
    have hmem := minEntry_mem hm
    have hle := minEntry_le hm
    have hpop : s.pop = (some m.2, ⟨s.txs.erase m⟩) := by
      unfold PendingTransactions.pop
      rw [hm]
    refine ⟨hmem, hle, hpop, ?_⟩
    rw [hpop]
    simp only
    have hlen := List.length_erase_of_mem hmem
    have hpos : 0 < s.txs.length := List.length_pos.mpr (by
      intro he; rw [he] at hmem; simp at hmem)
    omega
  · intro t
    unfold PendingTransactions.dueCompletesAt
    cases hm : minEntry s.txs with
    | none => simp
    | some m => simp
  · intro he t
    unfold PendingTransactions.dueCompletesAt
    rw [he]
    rfl

/-- Claim C9 witness: the theorem instantiated on the concrete queue
holding entries (5,2), (3,7), (3,1): the least pair is (3,1), `pop`
returns transaction id 1 and removes that entry, and `due` completes at
time 3. -/
theorem claim_C9_witness :
    (⟨[(5, 2), (3, 7), (3, 1)]⟩ : PendingTransactions).pop =
      (some 1, ⟨[(5, 2), (3, 7)]⟩) ∧
    (⟨[(5, 2), (3, 7), (3, 1)]⟩ : PendingTransactions).dueCompletesAt 3 = true := by
  have hh := claim_C9 ⟨[(5, 2), (3, 7), (3, 1)]⟩
  constructor
  · have h2 := (hh.2.2.1 (3, 1) (by decide)).2.2.1
    rw [h2]
    decide
  · exact (hh.2.2.2.1 3).mpr ⟨(3, 1), by decide, by decide⟩

/-- Claim C1 counterexample: the node (genesis 0, chain [block 1]) accepts
the announcement of blocks 2, 3 and requests block 2
(`max_request_blocks_count = 1`), so block 2 is in `blocks_in_flight`.
The next header list starts at block 3, whose parent 2 is exactly the
block in flight — and the node reports DisconnectedHeaders misbehavior
for it, which the claim says cannot happen. This is the behaviour the
repository test `send_headers_connected_to_block_which_is_being_downloaded`
asserts. -/
theorem claim_C1_counterexample :
    (run ⟨2000, 1, 101, 25⟩ ProtocolVersion.v1 (initState 0 [⟨1, 0⟩])
      [InEvent.recvHeaderList [⟨2, 1⟩, ⟨3, 2⟩]]).peer.blocksInFlight = [2] ∧
    outsAfter ⟨2000, 1, 101, 25⟩ ProtocolVersion.v1 (initState 0 [⟨1, 0⟩])
      [InEvent.recvHeaderList [⟨2, 1⟩, ⟨3, 2⟩]]
      (InEvent.recvHeaderList [⟨3, 2⟩, ⟨4, 3⟩]) =
      [OutEvent.misbehaviorDisconnectedHeaders] := by
  decide

/-- Claim C1 (amended): a received HeaderList whose first header's parent
is a block currently in `blocks_in_flight` but not in the chainstate is
classified as *unconnected*; when it carries more than one header,
DisconnectedHeaders misbehavior is reported for it. -/
theorem claim_C1 (cfg : ProtocolConfig) (ver : ProtocolVersion) (s : NodeState)
    (first : Header) (rest : List Header)
    (hlen : (first :: rest).length ≤ cfg.msgHeaderCountLimit)
    (hlink : chainLinked (first :: rest) = true)
    (hcs : first.prev ∉ csIds s.genesisId s.chain)
    (hflight : first.prev ∈ s.peer.blocksInFlight)
    (hrest : rest ≠ []) :
    (handleHeaderList cfg ver s (first :: rest)).2 =
      [OutEvent.misbehaviorDisconnectedHeaders] := by
  rw [handleHeaderList_unconnected_multi cfg ver s first rest hlen hlink hcs hrest]

/-- Claim C1 witness: the amended theorem instantiated on the
counterexample's state — block 2 in flight, announcement [3, 4] rooted at
block 2. -/
theorem claim_C1_witness :
    (handleHeaderList ⟨2000, 1, 101, 25⟩ ProtocolVersion.v1
      ⟨0, [⟨1, 0⟩], ⟨[2], [⟨3, 2⟩], 0, some 3, []⟩⟩
      [⟨3, 2⟩, ⟨4, 3⟩]).2 = [OutEvent.misbehaviorDisconnectedHeaders] :=
  claim_C1 ⟨2000, 1, 101, 25⟩ ProtocolVersion.v1
    ⟨0, [⟨1, 0⟩], ⟨[2], [⟨3, 2⟩], 0, some 3, []⟩⟩ ⟨3, 2⟩ [⟨4, 3⟩]
    (by decide) (by decide) (by decide) (by decide) (by decide)

/-- Claim C3 counterexample: same setup as for C1 — after announcing
blocks 2, 3 the node has requested block 2 and keeps header 3 in
`pending_headers`. A further header list of blocks 4, 5, whose first
parent 3 is tracked in `pending_headers`, draws DisconnectedHeaders
misbehavior, which the claim says cannot happen. This is the behaviour
the repository test `send_headers_connected_to_previously_sent_headers`
asserts. -/
theorem claim_C3_counterexample :
    (run ⟨2000, 1, 101, 25⟩ ProtocolVersion.v1 (initState 0 [⟨1, 0⟩])
      [InEvent.recvHeaderList [⟨2, 1⟩, ⟨3, 2⟩]]).peer.pendingHeaders =
      [⟨3, 2⟩] ∧
    outsAfter ⟨2000, 1, 101, 25⟩ ProtocolVersion.v1 (initState 0 [⟨1, 0⟩])
      [InEvent.recvHeaderList [⟨2, 1⟩, ⟨3, 2⟩]]
      (InEvent.recvHeaderList [⟨4, 3⟩, ⟨5, 4⟩]) =
      [OutEvent.misbehaviorDisconnectedHeaders] := by
  decide

/-- Claim C3 (amended): a received HeaderList whose first header's parent
is a header tracked in this peer's `pending_headers` but not a block of
the chainstate is classified as *unconnected*; when it carries more than
one header, DisconnectedHeaders misbehavior is reported for it. -/
theorem claim_C3 (cfg : ProtocolConfig) (ver : ProtocolVersion) (s : NodeState)
    (first : Header) (rest : List Header)
    (hlen : (first :: rest).length ≤ cfg.msgHeaderCountLimit)
    (hlink : chainLinked (first :: rest) = true)
    (hcs : first.prev ∉ csIds s.genesisId s.chain)
    (hpend : first.prev ∈ s.peer.pendingHeaders.map Header.id)
    (hrest : rest ≠ []) :
    (handleHeaderList cfg ver s (first :: rest)).2 =
      [OutEvent.misbehaviorDisconnectedHeaders] := by
  rw [handleHeaderList_unconnected_multi cfg ver s first rest hlen hlink hcs hrest]

/-- Claim C3 witness: the amended theorem instantiated on the
counterexample's state — header 3 pending, announcement [4, 5] rooted at
block 3. -/
theorem claim_C3_witness :
    (handleHeaderList ⟨2000, 1, 101, 25⟩ ProtocolVersion.v1
      ⟨0, [⟨1, 0⟩], ⟨[2], [⟨3, 2⟩], 0, some 3, []⟩⟩
      [⟨4, 3⟩, ⟨5, 4⟩]).2 = [OutEvent.misbehaviorDisconnectedHeaders] :=
  claim_C3 ⟨2000, 1, 101, 25⟩ ProtocolVersion.v1
    ⟨0, [⟨1, 0⟩], ⟨[2], [⟨3, 2⟩], 0, some 3, []⟩⟩ ⟨4, 3⟩ [⟨5, 4⟩]
    (by decide) (by decide) (by decide) (by decide) (by decide)

/-- Claim C2: on a single header with unknown parent, V1 within tolerance
answers with a `HeaderListRequest` built from the local locator and
increments the singular-unconnected counter without misbehavior; V1 with
the incremented counter exceeding `max_singular_unconnected_headers`
reports DisconnectedHeaders, as does V2 on any such header; and any
connected header list resets the counter to zero. -/
theorem claim_C2 (cfg : ProtocolConfig) (s : NodeState) (h : Header)
    (hlim : 1 ≤ cfg.msgHeaderCountLimit)
    (hprev : h.prev ∉ csIds s.genesisId s.chain) :
    (s.peer.singularCount + 1 ≤ cfg.maxSingularUnconnectedHeaders →
      handleHeaderList cfg ProtocolVersion.v1 s [h] =
        ({ s with peer :=
            { s.peer with singularCount := s.peer.singularCount + 1 } },
         [OutEvent.headerListRequest (mkLocator cfg s.genesisId s.chain)])) ∧
    (cfg.maxSingularUnconnectedHeaders < s.peer.singularCount + 1 →
      (handleHeaderList cfg ProtocolVersion.v1 s [h]).1.peer.singularCount =
          s.peer.singularCount + 1 ∧
      (handleHeaderList cfg ProtocolVersion.v1 s [h]).2 =
        [OutEvent.misbehaviorDisconnectedHeaders]) ∧
    ((handleHeaderList cfg ProtocolVersion.v2 s [h]).2 =
      [OutEvent.misbehaviorDisconnectedHeaders]) ∧
    (∀ (ver : ProtocolVersion) (first : Header) (rest : List Header),
      (first :: rest).length ≤ cfg.msgHeaderCountLimit →
      chainLinked (first :: rest) = true →
      first.prev ∈ csIds s.genesisId s.chain →
      (handleHeaderList cfg ver s (first :: rest)).1.peer.singularCount = 0) := by
  refine ⟨?_, ?_, ?_, ?_⟩
  · intro hcnt
    rw [handleHeaderList_singular cfg ProtocolVersion.v1 s h hlim hprev]
    rw [if_neg]
    intro hc
    rcases hc with hc | hc
    · cases hc
    · omega
  · intro hcnt
    rw [handleHeaderList_singular cfg ProtocolVersion.v1 s h hlim hprev]
    rw [if_pos (Or.inr hcnt)]
    exact ⟨rfl, rfl⟩
  · rw [handleHeaderList_singular cfg ProtocolVersion.v2 s h hlim hprev]
    rw [if_pos (Or.inl rfl)]
  · intro ver first rest hlen hlink hcs
    rw [handleHeaderList_connected cfg ver s first rest hlen hlink hcs]

/-- Claim C2 witness: with `max_singular_unconnected_headers = 1` and the
chain [block 1] of genesis 0, the first singular unconnected header (block
9 over unknown 7) draws a header-list request under V1 and misbehavior
under V2; a connected announcement resets the counter. -/
theorem claim_C2_witness :
    (handleHeaderList ⟨2000, 500, 101, 1⟩ ProtocolVersion.v1
        (initState 0 [⟨1, 0⟩]) [⟨9, 7⟩]).2 =
      [OutEvent.headerListRequest [1, 0]] ∧
    (handleHeaderList ⟨2000, 500, 101, 1⟩ ProtocolVersion.v2
        (initState 0 [⟨1, 0⟩]) [⟨9, 7⟩]).2 =
      [OutEvent.misbehaviorDisconnectedHeaders] ∧
    (handleHeaderList ⟨2000, 500, 101, 1⟩ ProtocolVersion.v1
        ⟨0, [⟨1, 0⟩], ⟨[], [], 1, none, []⟩⟩ [⟨2, 1⟩]).1.peer.singularCount = 0 := by
  have hh := claim_C2 ⟨2000, 500, 101, 1⟩ (initState 0 [⟨1, 0⟩]) ⟨9, 7⟩
    (by decide) (by decide)
  have hr := claim_C2 ⟨2000, 500, 101, 1⟩ ⟨0, [⟨1, 0⟩], ⟨[], [], 1, none, []⟩⟩
    ⟨9, 7⟩ (by decide) (by decide)
  refine ⟨?_, hh.2.2.1, ?_⟩
  · rw [hh.1 (by decide)]
    decide
  · exact hr.2.2.2 ProtocolVersion.v1 ⟨2, 1⟩ [] (by decide) (by decide) (by decide)

/-- Claim C5: (i) starting from a fresh peer, `|blocks_in_flight|` never
exceeds `max_request_blocks_count` over any event sequence; (ii) the
scheduler walk over a connected fresh announcement collects exactly its
first `slots` block ids in order and keeps the remainder; (iii) a
connected HeaderList of fresh blocks, with free slots available, yields a
BlockListRequest of exactly the first
`max_request_blocks_count - |blocks_in_flight|` ids in announcement order,
the rest staying in `pending_headers`. -/
theorem claim_C5 :
    (∀ (cfg : ProtocolConfig) (ver : ProtocolVersion) (g : Nat)
       (chain0 : List Header) (evs : List InEvent),
       (run cfg ver (initState g chain0) evs).peer.blocksInFlight.length ≤
         cfg.maxRequestBlocksCount) ∧
    (∀ (cs gIF : List Nat) (slots : Nat) (hs : List Header),
       chainLinked hs = true →
       headAnchored cs hs →
       (∀ hh ∈ hs, hh.id ∉ cs ∧ hh.id ∉ gIF) →
       schedWalk cs gIF slots [] hs =
         ((hs.take slots).map Header.id, hs.drop slots)) ∧
    (∀ (cfg : ProtocolConfig) (ver : ProtocolVersion) (s : NodeState)
       (first : Header) (rest : List Header),
       (first :: rest).length ≤ cfg.msgHeaderCountLimit →
       chainLinked (first :: rest) = true →
       first.prev ∈ csIds s.genesisId s.chain →
       (∀ hh ∈ first :: rest, hh.id ∉ csIds s.genesisId s.chain ∧
          hh.id ∉ s.peer.blocksInFlight) →
       0 < cfg.maxRequestBlocksCount - s.peer.blocksInFlight.length →
       (handleHeaderList cfg ver s (first :: rest)).1.peer.blocksInFlight =
           s.peer.blocksInFlight ++
             ((first :: rest).take
               (cfg.maxRequestBlocksCount -
                 s.peer.blocksInFlight.length)).map Header.id ∧
       (handleHeaderList cfg ver s (first :: rest)).1.peer.pendingHeaders =
           (first :: rest).drop
             (cfg.maxRequestBlocksCount - s.peer.blocksInFlight.length) ∧
       (handleHeaderList cfg ver s (first :: rest)).2 =
           [OutEvent.blockListRequest
             (((first :: rest).take
               (cfg.maxRequestBlocksCount -
                 s.peer.blocksInFlight.length)).map Header.id)]) := by
  refine ⟨?_, ?_, ?_⟩
  · intro cfg ver g chain0 evs
    exact run_inFlight_le cfg ver evs (initState g chain0) (Nat.zero_le _)
  · intro cs gIF slots hs hlink hanch hfresh
    have hanch2 : headAnchored (cs ++ []) hs := by
      cases hs with
      | nil => trivial
      | cons h t =>
        show h.prev ∈ cs ++ []
        simpa using hanch
    have := schedWalk_go cs gIF hs slots [] hlink hanch2 hfresh
    simpa using this
  · intro cfg ver s first rest hlen hlink hcs hfresh hpos
    rw [handleHeaderList_connected cfg ver s first rest hlen hlink hcs]
    have hanch2 : headAnchored (csIds s.genesisId s.chain ++ [])
        (first :: rest) := by
      show first.prev ∈ csIds s.genesisId s.chain ++ []
      simpa using hcs
    have hsw := schedWalk_go (csIds s.genesisId s.chain) s.peer.blocksInFlight
      (first :: rest)
      (cfg.maxRequestBlocksCount - s.peer.blocksInFlight.length) []
      hlink hanch2 hfresh
    simp only [List.reverse_nil, List.nil_append] at hsw
    obtain ⟨k, hk⟩ := Nat.exists_eq_succ_of_ne_zero (Nat.pos_iff_ne_zero.mp hpos)
    refine ⟨by simp only [hsw], by simp only [hsw], ?_⟩
    simp only [hsw]
    rw [if_neg (by simp [hk])]

/-- Claim C5 witness: with `max_request_blocks_count = 2` and chain
[block 1], the announcement of blocks 2, 3, 4 is answered by a request for
exactly blocks 2, 3, and the in-flight bound holds on the run. -/
theorem claim_C5_witness :
    (run ⟨2000, 2, 101, 25⟩ ProtocolVersion.v2 (initState 0 [⟨1, 0⟩])
      [InEvent.recvHeaderList [⟨2, 1⟩, ⟨3, 2⟩, ⟨4, 3⟩]]).peer.blocksInFlight.length ≤
      2 ∧
    (handleHeaderList ⟨2000, 2, 101, 25⟩ ProtocolVersion.v2 (initState 0 [⟨1, 0⟩])
      [⟨2, 1⟩, ⟨3, 2⟩, ⟨4, 3⟩]).2 = [OutEvent.blockListRequest [2, 3]] := by
  refine ⟨claim_C5.1 ⟨2000, 2, 101, 25⟩ ProtocolVersion.v2 0 [⟨1, 0⟩] _, ?_⟩
  have hh := claim_C5.2.2 ⟨2000, 2, 101, 25⟩ ProtocolVersion.v2
    (initState 0 [⟨1, 0⟩]) ⟨2, 1⟩ [⟨3, 2⟩, ⟨4, 3⟩]
    (by decide) (by decide) (by decide) (by decide) (by decide)
  rw [hh.2.2]
  decide

/-- Claim C4 counterexample: the node of chain [block 1] learns from a
locator that the peer has block 1, then announces blocks 2, 3 on one new
tip and — on the next new tip — blocks 2, 3, 4, 5: the second announcement
repeats the already transmitted but unacknowledged headers 2 and 3, so no
`known_headers_sent` deduplication takes place. This is the behaviour the
repository test `best_known_block_is_considered` asserts. -/
theorem claim_C4_counterexample :
    outsAfter ⟨2000, 1, 101, 25⟩ ProtocolVersion.v2 (initState 0 [⟨1, 0⟩])
      [InEvent.recvHeaderListRequest [1]]
      (InEvent.newTip [⟨2, 1⟩, ⟨3, 2⟩]) =
      [OutEvent.headerList [⟨2, 1⟩, ⟨3, 2⟩]] ∧
    outsAfter ⟨2000, 1, 101, 25⟩ ProtocolVersion.v2 (initState 0 [⟨1, 0⟩])
      [InEvent.recvHeaderListRequest [1], InEvent.newTip [⟨2, 1⟩, ⟨3, 2⟩]]
      (InEvent.newTip [⟨4, 3⟩, ⟨5, 4⟩]) =
      [OutEvent.headerList [⟨2, 1⟩, ⟨3, 2⟩, ⟨4, 3⟩, ⟨5, 4⟩]] ∧
    Header.mk 2 1 ∈ [Header.mk 2 1, Header.mk 3 2] := by
  decide

/-- Claim C4 (amended): the node records nothing about an emitted
announcement — a new-tip step leaves the peer context (including
`best_known_block`) unchanged — and every announcement contains all
best-chain headers strictly above `best_known_block` (up to the length
limit), so headers announced earlier but not yet acknowledged are
transmitted again. -/
theorem claim_C4 :
    (∀ (cfg : ProtocolConfig) (chain : List Header) (b k : Nat),
       (chain.map Header.id)[k]? = some b →
       (∀ j ∈ List.range k, (chain.map Header.id)[j]? ≠ some b) →
       computeAnnouncement cfg chain (some b) =
         (chain.drop (k + 1)).take cfg.msgHeaderCountLimit) ∧
    (∀ (cfg : ProtocolConfig) (ver : ProtocolVersion) (s : NodeState)
       (hs : List Header),
       (step cfg ver s (InEvent.newTip hs)).1.peer = s.peer) ∧
    (∀ (cfg : ProtocolConfig) (ver : ProtocolVersion) (s : NodeState)
       (hs : List Header), s.peer.blocksToSend = [] →
       (step cfg ver s (InEvent.newTip hs)).2 =
         (if computeAnnouncement cfg (extendChain s.genesisId s.chain hs)
              s.peer.bestKnown = [] then []
          else [OutEvent.headerList (computeAnnouncement cfg
            (extendChain s.genesisId s.chain hs) s.peer.bestKnown)])) := by
  refine ⟨?_, ?_, ?_⟩
  · intro cfg chain b k hk hfirst
    have hp : posOf b (chain.map Header.id) = some k :=
      posOf_eq_some_of_first hk hfirst
    unfold computeAnnouncement heightOfBlock
    simp [hp]
  · intro cfg ver s hs
    simp only [step, handleNewTip]
    split_ifs <;> rfl
  · intro cfg ver s hs he
    simp only [step, handleNewTip]
    rw [if_pos he]

/-- Claim C4 witness: the amended theorem instantiated on the chain
[block 1, block 2] with the peer's best known block 1: the announcement is
[block 2] (all and only headers above block 1), and on the node state with
best known block 1 a new tip of block 3 is announced as [block 2, block 3]
— block 2 re-sent. -/
theorem claim_C4_witness :
    computeAnnouncement ⟨2000, 1, 101, 25⟩ [⟨1, 0⟩, ⟨2, 1⟩] (some 1) =
      [⟨2, 1⟩] ∧
    (step ⟨2000, 1, 101, 25⟩ ProtocolVersion.v2
      (⟨0, [⟨1, 0⟩, ⟨2, 1⟩], ⟨[], [], 0, some 1, []⟩⟩ : NodeState)
      (InEvent.newTip [⟨3, 2⟩])).2 =
      [OutEvent.headerList [⟨2, 1⟩, ⟨3, 2⟩]] := by
  constructor
  · have hh := claim_C4.1 ⟨2000, 1, 101, 25⟩ [⟨1, 0⟩, ⟨2, 1⟩] 1 0
      (by decide) (by decide)
    rw [hh]
    decide
  · have hh := claim_C4.2.2 ⟨2000, 1, 101, 25⟩ ProtocolVersion.v2
      ⟨0, [⟨1, 0⟩, ⟨2, 1⟩], ⟨[], [], 0, some 1, []⟩⟩ [⟨3, 2⟩] rfl
    rw [hh]
    decide

/-- Claim C6: a new-tip event while blocks remain queued for delivery to
the peer emits nothing; with the delivery queue empty it emits exactly the
announcement. Concretely (mirroring the repository test
`dont_make_announcements_while_blocks_are_being_sent`): with chain
[1, 2] and the peer's block request [1, 2] half delivered, the new tip of
block 3 is suppressed, and after the remaining delivery the next new tip
(block 4) is announced as [block 3, block 4] — the deferred header
included. -/
theorem claim_C6 :
    (∀ (cfg : ProtocolConfig) (ver : ProtocolVersion) (s : NodeState)
       (hs : List Header), s.peer.blocksToSend ≠ [] →
       (step cfg ver s (InEvent.newTip hs)).2 = []) ∧
    (∀ (cfg : ProtocolConfig) (ver : ProtocolVersion) (s : NodeState)
       (hs : List Header), s.peer.blocksToSend = [] →
       computeAnnouncement cfg (extendChain s.genesisId s.chain hs)
         s.peer.bestKnown ≠ [] →
       (step cfg ver s (InEvent.newTip hs)).2 =
         [OutEvent.headerList (computeAnnouncement cfg
           (extendChain s.genesisId s.chain hs) s.peer.bestKnown)]) ∧
    (outsAfter ⟨2000, 1, 101, 25⟩ ProtocolVersion.v2 (initState 0 [⟨1, 0⟩, ⟨2, 1⟩])
       [InEvent.recvBlockListRequest [1, 2], InEvent.deliverBlock]
       (InEvent.newTip [⟨3, 2⟩]) = [] ∧
     (run ⟨2000, 1, 101, 25⟩ ProtocolVersion.v2 (initState 0 [⟨1, 0⟩, ⟨2, 1⟩])
       [InEvent.recvBlockListRequest [1, 2],
        InEvent.deliverBlock]).peer.blocksToSend = [2] ∧
     outsAfter ⟨2000, 1, 101, 25⟩ ProtocolVersion.v2 (initState 0 [⟨1, 0⟩, ⟨2, 1⟩])
       [InEvent.recvBlockListRequest [1, 2], InEvent.deliverBlock,
        InEvent.newTip [⟨3, 2⟩], InEvent.deliverBlock]
       (InEvent.newTip [⟨4, 3⟩]) =
       [OutEvent.headerList [⟨3, 2⟩, ⟨4, 3⟩]]) := by
  refine ⟨?_, ?_, ?_⟩
  · intro cfg ver s hs hne
    simp only [step, handleNewTip]
    rw [if_neg hne]
  · intro cfg ver s hs he hann
    simp only [step, handleNewTip]
    rw [if_pos he]
    simp only
    rw [if_neg hann]
  · decide

/-- Claim C6 witness: the suppression and emission parts instantiated —
with a block queued for delivery a new tip emits nothing; with the queue
empty the announcement [block 1, block 2] is emitted. -/
theorem claim_C6_witness :
    (step ⟨2000, 1, 101, 25⟩ ProtocolVersion.v2
      (⟨0, [⟨1, 0⟩], ⟨[], [], 0, none, [5]⟩⟩ : NodeState)
      (InEvent.newTip [⟨2, 1⟩])).2 = [] ∧
    (step ⟨2000, 1, 101, 25⟩ ProtocolVersion.v2
      (⟨0, [⟨1, 0⟩], ⟨[], [], 0, none, []⟩⟩ : NodeState)
      (InEvent.newTip [⟨2, 1⟩])).2 =
      [OutEvent.headerList [⟨1, 0⟩, ⟨2, 1⟩]] := by
  constructor
  · exact claim_C6.1 ⟨2000, 1, 101, 25⟩ ProtocolVersion.v2
      ⟨0, [⟨1, 0⟩], ⟨[], [], 0, none, [5]⟩⟩ [⟨2, 1⟩] (by decide)
  · have hh := claim_C6.2.1 ⟨2000, 1, 101, 25⟩ ProtocolVersion.v2
      ⟨0, [⟨1, 0⟩], ⟨[], [], 0, none, []⟩⟩ [⟨2, 1⟩] rfl (by decide)
    rw [hh]
    decide

/-- Claim C7: the reply to `HeaderListRequest(locator)` consists of the
best-chain headers strictly above the greatest-height locator entry on the
best chain (from genesis when no entry is on it), forward in height order
up to `msg_header_count_limit`, and is empty when that entry is the local
tip; a block of height `m` on the chain indeed sits at chain position
`m - 1`. -/
theorem claim_C7 (cfg : ProtocolConfig) (chain : List Header)
    (locator : List Nat) :
    ((∀ b ∈ locator, heightOfBlock chain b = none) →
       headerRequestResponse cfg chain locator =
         chain.take cfg.msgHeaderCountLimit) ∧
    (∀ b m, b ∈ locator → heightOfBlock chain b = some m →
       (∀ b2 ∈ locator, (heightOfBlock chain b2).getD 0 ≤ m) →
       headerRequestResponse cfg chain locator =
         (chain.drop m).take cfg.msgHeaderCountLimit ∧
       (m = chain.length → headerRequestResponse cfg chain locator = [])) ∧
    (∀ b m, heightOfBlock chain b = some m →
       1 ≤ m ∧ m ≤ chain.length ∧ (chain.map Header.id)[m - 1]? = some b) := by
  refine ⟨?_, ?_, ?_⟩
  · intro hall
    unfold headerRequestResponse locatorAnchorHeight
    have hnil : locator.filterMap (heightOfBlock chain) = [] := by
      rw [List.filterMap_eq_nil_iff]
      exact hall
    rw [hnil]
    simp [natListMax]
  · intro b m hb hm hmax
    have hanchor : locatorAnchorHeight chain locator = m := by
      unfold locatorAnchorHeight
      apply natListMax_eq
      · exact List.mem_filterMap.mpr ⟨b, hb, hm⟩
      · intro x hx
        rcases List.mem_filterMap.mp hx with ⟨b2, hb2, hfb2⟩
        have hx2 := hmax b2 hb2
        rw [hfb2] at hx2
        simpa using hx2
    constructor
    · unfold headerRequestResponse
      rw [hanchor]
    · intro hlen
      unfold headerRequestResponse
      rw [hanchor, hlen]
      simp
  · intro b m hm
    unfold heightOfBlock at hm
    rcases Option.map_eq_some'.mp hm with ⟨i, hi, rfl⟩
    have hsp := posOf_spec hi
    have h1 : i < chain.length := by simpa using hsp.1
    exact ⟨by omega, by omega, by simpa using hsp.2⟩

/-- Claim C7 witness: on the chain [block 1, block 2] — a locator with no
on-chain entry is answered from genesis with the whole chain, and a
locator containing the tip (block 2, height 2) is answered with the empty
header list. -/
theorem claim_C7_witness :
    headerRequestResponse ⟨10, 1, 101, 25⟩ [⟨1, 0⟩, ⟨2, 1⟩] [7, 9] =
      [⟨1, 0⟩, ⟨2, 1⟩] ∧
    headerRequestResponse ⟨10, 1, 101, 25⟩ [⟨1, 0⟩, ⟨2, 1⟩] [2, 7] = [] := by
  constructor
  · have hh := (claim_C7 ⟨10, 1, 101, 25⟩ [⟨1, 0⟩, ⟨2, 1⟩] [7, 9]).1 (by decide)
    rw [hh]
    decide
  · exact ((claim_C7 ⟨10, 1, 101, 25⟩ [⟨1, 0⟩, ⟨2, 1⟩] [2, 7]).2.1 2 2
      (by decide) (by decide) (by decide)).2 (by decide)

end MintlayerVerify
